import Mathlib

/-
  Shallow embedding of the rucky repository (a Monkey-style lexer and parser
  written in Rust): src/src/token.rs, src/src/ast.rs, src/src/lexer.rs,
  src/src/parser.rs.

  Conventions of the embedding:
  * Rust byte strings become List Nat (each element one byte).
  * The Lexer struct and its methods are translated field by field; the
    while-loops of the lexer (skip_whitespace, read_identifier, read_number)
    are written with an explicit fuel argument and are always called with
    fuel input.length + 1, which is proved sufficient for every state
    satisfying the representation invariant Inv (lemmas below), so the
    fueled functions agree with the Rust loops on every reachable state.
  * next_token returns Option (Token x Lexer): none models the Rust panic
    in consume_number, where parse i64 followed by unwrap aborts when the
    digit run exceeds the i64 range; every other path returns some.
  * The parser methods are translated into mutually recursive functions over
    an explicit fuel; the outcome type PRes distinguishes a finished run
    (ok), the lexer panic propagated (panicked), and fuel exhaustion
    (nofuel).  A result of nofuel for every fuel value is a proof that the
    Rust code loops forever.
-/

namespace Rucky

/-
  token.rs declares the enum Token with variants Function, LessThan and
  GreaterThan, but lexer.rs and parser.rs (the code that constructs and
  consumes tokens) use Token::Fn, Token::Lt and Token::Gt for those three
  lexemes.  The embedding follows the names the executable code uses; the
  set of variants is otherwise exactly the one of token.rs.
-/
inductive Token where
  | Illegal
  | EOF
  | Ident (s : List Nat)
  | Int (n : Int)
  | Assign
  | Plus
  | Minus
  | Bang
  | Asterisk
  | Slash
  | Equal
  | NotEqual
  | Lt
  | Gt
  | Comma
  | Semicolon
  | Lparen
  | Rparen
  | Lbrace
  | Rbrace
  | Fn
  | Let
  | True
  | False
  | If
  | Else
  | Return
  deriving DecidableEq

/- ast.rs: pub struct Ident(pub String) -/
structure Ident where
  text : List Nat
  deriving DecidableEq

/-
  ast.rs declares Prefix with the single variant Plus and Infix with the
  single variant Plus, but parser.rs constructs Prefix::Minus, Prefix::Bang
  and Infix::Minus .. Infix::NotEqual; the embedding carries the variants the
  parser code uses.
-/
inductive Prefix where
  | Plus
  | Minus
  | Bang
  deriving DecidableEq

inductive Infix where
  | Plus
  | Minus
  | Asterisk
  | Slash
  | Lt
  | Gt
  | Equal
  | NotEqual
  deriving DecidableEq

inductive Literal where
  | Int (n : Int)
  | String (s : List Nat)
  deriving DecidableEq

inductive Expr where
  | Ident (i : Ident)
  | Literal (v : Literal)
  | Prefix (op : Prefix) (e : Expr)
  | Infix (op : Infix) (left : Expr) (right : Expr)
  deriving DecidableEq

inductive Stmt where
  | Blank
  | Let (name : Ident) (e : Expr)
  | Return (e : Expr)
  | Expr (e : Expr)
  deriving DecidableEq

/- ast.rs: Precedence (parse_expr receives it; the code never consults it) -/
inductive Precedence where
  | Lowest
  | Equals
  | LessGreater
  | Sum
  | Product
  | Prefix
  | Call
  deriving DecidableEq

/- helper: the byte list of an ASCII string literal -/
def bytes (s : String) : List Nat := s.data.map Char.toNat

/- lexer.rs: struct Lexer -/
structure Lexer where
  input : List Nat
  position : Nat
  read_position : Nat
  ch : Nat
  deriving DecidableEq

/- lexer.rs read_char: ch gets 0 past the end, else the byte at
   read_position; position moves to read_position, which then advances -/
def Lexer.read_char (l : Lexer) : Lexer :=
  { l with
    ch := if l.input.length ≤ l.read_position then 0 else l.input.getD l.read_position 0,
    position := l.read_position,
    read_position := l.read_position + 1 }

/- lexer.rs Lexer::new -/
def Lexer.new (input : List Nat) : Lexer :=
  Lexer.read_char { input := input, position := 0, read_position := 0, ch := 0 }

/- lexer.rs peek_char -/
def Lexer.peek_char (l : Lexer) : Nat :=
  if l.input.length ≤ l.read_position then 0 else l.input.getD l.read_position 0

/- lexer.rs is_letter: ASCII a..z, A..Z, underscore -/
def is_letter (c : Nat) : Bool :=
  decide ((97 ≤ c ∧ c ≤ 122) ∨ (65 ≤ c ∧ c ≤ 90) ∨ c = 95)

/- lexer.rs is_digit: ASCII 0..9 -/
def is_digit (c : Nat) : Bool :=
  decide (48 ≤ c ∧ c ≤ 57)

/- the whitespace test of skip_whitespace: space, tab, newline, return -/
def is_whitespace_byte (c : Nat) : Bool :=
  decide (c = 32 ∨ c = 9 ∨ c = 10 ∨ c = 13)

/- lexer.rs skip_whitespace: while ch is whitespace, read_char -/
def skip_whitespace_go : Nat → Lexer → Lexer
  | 0, l => l
  | fuel + 1, l =>
      if is_whitespace_byte l.ch then skip_whitespace_go fuel l.read_char else l

def Lexer.skip_whitespace (l : Lexer) : Lexer :=
  skip_whitespace_go (l.input.length + 1) l

/- lexer.rs read_identifier: while is_letter ch, read_char; the returned
   literal is the byte slice input[start position .. final position] -/
def read_ident_go : Nat → Lexer → Lexer
  | 0, l => l
  | fuel + 1, l =>
      if is_letter l.ch then read_ident_go fuel l.read_char else l

def Lexer.read_identifier (l : Lexer) : List Nat × Lexer :=
  let l2 := read_ident_go (l.input.length + 1) l
  ((l.input.drop l.position).take (l2.position - l.position), l2)

/- lexer.rs read_number -/
def read_number_go : Nat → Lexer → Lexer
  | 0, l => l
  | fuel + 1, l =>
      if is_digit l.ch then read_number_go fuel l.read_char else l

def Lexer.read_number (l : Lexer) : List Nat × Lexer :=
  let l2 := read_number_go (l.input.length + 1) l
  ((l.input.drop l.position).take (l2.position - l.position), l2)

/- lexer.rs consume_identifier: keyword table lookup, else Ident -/
def Lexer.consume_identifier (l : Lexer) : Token × Lexer :=
  let r := l.read_identifier
  if r.1 = bytes "fn" then (Token.Fn, r.2)
  else if r.1 = bytes "let" then (Token.Let, r.2)
  else if r.1 = bytes "true" then (Token.True, r.2)
  else if r.1 = bytes "false" then (Token.False, r.2)
  else if r.1 = bytes "if" then (Token.If, r.2)
  else if r.1 = bytes "else" then (Token.Else, r.2)
  else if r.1 = bytes "return" then (Token.Return, r.2)
  else (Token.Ident r.1, r.2)

/- decimal value of a run of ASCII digit bytes -/
def dec_value (ds : List Nat) : Nat :=
  ds.foldl (fun a d => a * 10 + (d - 48)) 0

def i64_max : Nat := 9223372036854775807

/- lexer.rs consume_number: parse i64 then unwrap.  The digit run is
   nonnegative, so the parse succeeds exactly when its value fits in i64;
   otherwise unwrap panics, modelled as none. -/
def Lexer.consume_number (l : Lexer) : Option (Token × Lexer) :=
  let r := l.read_number
  if dec_value r.1 ≤ i64_max then some (Token.Int (Int.ofNat (dec_value r.1)), r.2)
  else none

/- lexer.rs next_token after its initial skip_whitespace call.  The Rust
   match on self.ch is written as a chain of mutually exclusive byte tests;
   the branches for identifier and number return without the trailing
   read_char, every other branch (including EOF and Illegal) performs it,
   and the two-character operators perform the extra read_char of their
   match arm first. -/
def next_token_core (l : Lexer) : Option (Token × Lexer) :=
  if l.ch = 61 then
    (if l.peek_char = 61 then some (Token.Equal, l.read_char.read_char)
     else some (Token.Assign, l.read_char))
  else if l.ch = 43 then some (Token.Plus, l.read_char)
  else if l.ch = 45 then some (Token.Minus, l.read_char)
  else if l.ch = 33 then
    (if l.peek_char = 61 then some (Token.NotEqual, l.read_char.read_char)
     else some (Token.Bang, l.read_char))
  else if l.ch = 42 then some (Token.Asterisk, l.read_char)
  else if l.ch = 47 then some (Token.Slash, l.read_char)
  else if l.ch = 60 then some (Token.Lt, l.read_char)
  else if l.ch = 62 then some (Token.Gt, l.read_char)
  else if l.ch = 44 then some (Token.Comma, l.read_char)
  else if l.ch = 59 then some (Token.Semicolon, l.read_char)
  else if l.ch = 40 then some (Token.Lparen, l.read_char)
  else if l.ch = 41 then some (Token.Rparen, l.read_char)
  else if l.ch = 123 then some (Token.Lbrace, l.read_char)
  else if l.ch = 125 then some (Token.Rbrace, l.read_char)
  else if l.ch = 0 then some (Token.EOF, l.read_char)
  else if is_letter l.ch then some l.consume_identifier
  else if is_digit l.ch then l.consume_number
  else some (Token.Illegal, l.read_char)

/- lexer.rs next_token: skip whitespace, then classify the current byte -/
def Lexer.next_token (l0 : Lexer) : Option (Token × Lexer) :=
  next_token_core l0.skip_whitespace

/- the lexer state after n calls to next_token (none: a call panicked) -/
def lexStepN (l : Lexer) : Nat → Option Lexer
  | 0 => some l
  | n + 1 =>
      match l.next_token with
      | none => none
      | some r => lexStepN r.2 n

/- the first n tokens produced from a lexer state -/
def lex_tokens (l : Lexer) : Nat → Option (List Token)
  | 0 => some []
  | n + 1 =>
      match l.next_token with
      | none => none
      | some r => (lex_tokens r.2 n).map (fun ts => r.1 :: ts)

/-
  Representation invariant of every reachable lexer state: read_position is
  one past position, and ch caches the byte at position (0 past the end).
  Lexer.new establishes it and read_char preserves it unconditionally.
-/
def Inv (l : Lexer) : Prop :=
  l.read_position = l.position + 1 ∧
  l.ch = (if l.position < l.input.length then l.input.getD l.position 0 else 0)

instance (l : Lexer) : Decidable (Inv l) := by
  unfold Inv
  infer_instance

/- parser.rs: struct Parser -/
structure Parser where
  l : Lexer
  cur_token : Token
  peek_token : Token
  errors : List String
  deriving DecidableEq

/- Rust Debug rendering of a Token, as used in the format string of
   peek_error.  Identifier text is rebuilt from its bytes; escaping of
   non-printable characters inside identifier text is not reproduced (the
   claims never put such bytes into an identifier). -/
def byte_string (s : List Nat) : String := String.mk (s.map Char.ofNat)

def fmt_token : Token → String
  | Token.Illegal => "Illegal"
  | Token.EOF => "EOF"
  | Token.Ident s => "Ident(\"" ++ byte_string s ++ "\")"
  | Token.Int n => "Int(" ++ toString n ++ ")"
  | Token.Assign => "Assign"
  | Token.Plus => "Plus"
  | Token.Minus => "Minus"
  | Token.Bang => "Bang"
  | Token.Asterisk => "Asterisk"
  | Token.Slash => "Slash"
  | Token.Equal => "Equal"
  | Token.NotEqual => "NotEqual"
  | Token.Lt => "Lt"
  | Token.Gt => "Gt"
  | Token.Comma => "Comma"
  | Token.Semicolon => "Semicolon"
  | Token.Lparen => "Lparen"
  | Token.Rparen => "Rparen"
  | Token.Lbrace => "Lbrace"
  | Token.Rbrace => "Rbrace"
  | Token.Fn => "Fn"
  | Token.Let => "Let"
  | Token.True => "True"
  | Token.False => "False"
  | Token.If => "If"
  | Token.Else => "Else"
  | Token.Return => "Return"

/- parser.rs next_token (method of Parser): cur and peek swap, peek is
   refilled from the lexer; none propagates the lexer panic -/
def Parser.next_token (p : Parser) : Option Parser :=
  match p.l.next_token with
  | none => none
  | some r =>
      some { l := r.2, cur_token := p.peek_token, peek_token := r.1, errors := p.errors }

/- parser.rs Parser::new: two next_token calls fill cur and peek -/
def Parser.new (l : Lexer) : Option Parser :=
  (Parser.next_token
      { l := l, cur_token := Token.EOF, peek_token := Token.EOF, errors := [] }).bind
    Parser.next_token

def Parser.cur_token_is (p : Parser) (tok : Token) : Bool :=
  p.cur_token == tok

def Parser.peek_token_is (p : Parser) (tok : Token) : Bool :=
  p.peek_token == tok

/- parser.rs peek_token_is_infix (renamed: the last word of the Rust name
   cannot be used as a Lean identifier here) -/
def Parser.peek_token_infix_test (p : Parser) : Bool :=
  match p.peek_token with
  | Token.Plus => true
  | Token.Minus => true
  | Token.Asterisk => true
  | Token.Slash => true
  | Token.Lt => true
  | Token.Gt => true
  | Token.Equal => true
  | Token.NotEqual => true
  | _ => false

/- parser.rs peek_error: push the formatted message -/
def Parser.peek_error (p : Parser) (tok : Token) : Parser :=
  { p with
    errors := p.errors ++
      ["expected next Some(token to be " ++ fmt_token tok ++ ", got " ++
        fmt_token p.peek_token ++ " instead"] }

/- parser.rs consume_token: on a match advance and return true, otherwise
   record a peek_error and return false -/
def Parser.consume_token (p : Parser) (tok : Token) : Option (Bool × Parser) :=
  if p.peek_token_is tok then
    match p.next_token with
    | none => none
    | some p2 => some (true, p2)
  else some (false, p.peek_error tok)

/- parser.rs parse_ident (pure read of cur_token) -/
def Parser.parse_ident (p : Parser) : Option Ident :=
  match p.cur_token with
  | Token.Ident s => some { text := s }
  | _ => none

/- parser.rs parse_ident_expr -/
def Parser.parse_ident_expr (p : Parser) : Option Expr :=
  match p.parse_ident with
  | some i => some (Expr.Ident i)
  | _ => none

/- parser.rs parse_int_expr -/
def Parser.parse_int_expr (p : Parser) : Option Expr :=
  match p.cur_token with
  | Token.Int n => some (Expr.Literal (Literal.Int n))
  | _ => none

/- outcome of a fueled run of a parser method: ok carries the Rust return
   value and the mutated parser, panicked propagates the lexer panic,
   nofuel reports that the given fuel was exhausted -/
inductive PRes (α : Type) where
  | ok (a : α)
  | panicked
  | nofuel
  deriving DecidableEq

def PRes.bind {α β : Type} : PRes α → (α → PRes β) → PRes β
  | PRes.ok a, f => f a
  | PRes.panicked, _ => PRes.panicked
  | PRes.nofuel, _ => PRes.nofuel

def liftP {α : Type} : Option α → PRes α
  | none => PRes.panicked
  | some a => PRes.ok a

mutual

/- parser.rs parse_program: while cur is not EOF, parse_stmt, push a Some
   result, advance -/
def parse_program_go : Nat → Parser → List Stmt → PRes (List Stmt × Parser)
  | 0, _, _ => PRes.nofuel
  | fuel + 1, p, acc =>
      if p.cur_token_is Token.EOF then PRes.ok (acc, p)
      else
        (parse_stmt fuel p).bind fun r =>
          (liftP r.2.next_token).bind fun p2 =>
            parse_program_go fuel p2
              (match r.1 with
               | some stmt => acc ++ [stmt]
               | none => acc)

/- parser.rs parse_stmt: dispatch on cur_token -/
def parse_stmt : Nat → Parser → PRes (Option Stmt × Parser)
  | 0, _ => PRes.nofuel
  | fuel + 1, p =>
      match p.cur_token with
      | Token.Let => parse_let_stmt fuel p
      | Token.Return => parse_return_stmt fuel p
      | _ => parse_expr_stmt fuel p

/- parser.rs parse_let_stmt -/
def parse_let_stmt : Nat → Parser → PRes (Option Stmt × Parser)
  | 0, _ => PRes.nofuel
  | fuel + 1, p =>
      match p.peek_token with
      | Token.Ident _ =>
          (liftP p.next_token).bind fun p1 =>
            match p1.parse_ident with
            | none => PRes.ok (none, p1)
            | some name =>
                (liftP (p1.consume_token Token.Assign)).bind fun br =>
                  if br.1 then
                    (liftP br.2.next_token).bind fun p3 =>
                      (parse_expr fuel Precedence.Lowest p3).bind fun er =>
                        match er.1 with
                        | none => PRes.ok (none, er.2)
                        | some expr =>
                            (skip_to_semicolon fuel er.2).bind fun p5 =>
                              PRes.ok (some (Stmt.Let name expr), p5)
                  else PRes.ok (none, br.2)
      | _ => PRes.ok (none, p)

/- parser.rs parse_return_stmt -/
def parse_return_stmt : Nat → Parser → PRes (Option Stmt × Parser)
  | 0, _ => PRes.nofuel
  | fuel + 1, p =>
      (liftP p.next_token).bind fun p1 =>
        (parse_expr fuel Precedence.Lowest p1).bind fun er =>
          match er.1 with
          | none => PRes.ok (none, er.2)
          | some expr =>
              (skip_to_semicolon fuel er.2).bind fun p3 =>
                PRes.ok (some (Stmt.Return expr), p3)

/- parser.rs parse_expr_stmt: the result of consume_token is discarded -/
def parse_expr_stmt : Nat → Parser → PRes (Option Stmt × Parser)
  | 0, _ => PRes.nofuel
  | fuel + 1, p =>
      (parse_expr fuel Precedence.Lowest p).bind fun er =>
        match er.1 with
        | none => PRes.ok (none, er.2)
        | some expr =>
            (liftP (er.2.consume_token Token.Semicolon)).bind fun br =>
              PRes.ok (some (Stmt.Expr expr), br.2)

/- parser.rs parse_expr.  The match arms for Ident, Int and the three
   prefix operators continue into the common peek test; the default arm
   returns None at once.  The precedence argument is received but, as in
   the source, never consulted. -/
def parse_expr : Nat → Precedence → Parser → PRes (Option Expr × Parser)
  | 0, _, _ => PRes.nofuel
  | fuel + 1, _, p =>
      let after : Option Expr × Parser → PRes (Option Expr × Parser) := fun lp =>
        if lp.2.peek_token_infix_test then
          (liftP lp.2.next_token).bind fun p2 =>
            match lp.1 with
            | some expr => parse_infix_expr fuel expr p2
            | none => PRes.ok (none, p2)
        else PRes.ok lp
      match p.cur_token with
      | Token.Ident _ => after (p.parse_ident_expr, p)
      | Token.Int _ => after (p.parse_int_expr, p)
      | Token.Bang => (parse_prefix_expr fuel p).bind after
      | Token.Plus => (parse_prefix_expr fuel p).bind after
      | Token.Minus => (parse_prefix_expr fuel p).bind after
      | _ => PRes.ok (none, p)

/- parser.rs parse_prefix_expr -/
def parse_prefix_expr : Nat → Parser → PRes (Option Expr × Parser)
  | 0, _ => PRes.nofuel
  | fuel + 1, p =>
      let op : Option Prefix :=
        match p.cur_token with
        | Token.Bang => some Prefix.Bang
        | Token.Plus => some Prefix.Plus
        | Token.Minus => some Prefix.Minus
        | _ => none
      match op with
      | none => PRes.ok (none, p)
      | some pre =>
          (liftP p.next_token).bind fun p1 =>
            (parse_expr fuel Precedence.Lowest p1).bind fun er =>
              match er.1 with
              | some expr => PRes.ok (some (Expr.Prefix pre expr), er.2)
              | none => PRes.ok (none, er.2)

/- parser.rs parse_infix_expr: the right operand is parsed at Lowest -/
def parse_infix_expr : Nat → Expr → Parser → PRes (Option Expr × Parser)
  | 0, _, _ => PRes.nofuel
  | fuel + 1, left, p =>
      let op : Option Infix :=
        match p.cur_token with
        | Token.Plus => some Infix.Plus
        | Token.Minus => some Infix.Minus
        | Token.Asterisk => some Infix.Asterisk
        | Token.Slash => some Infix.Slash
        | Token.Lt => some Infix.Lt
        | Token.Gt => some Infix.Gt
        | Token.Equal => some Infix.Equal
        | Token.NotEqual => some Infix.NotEqual
        | _ => none
      match op with
      | none => PRes.ok (none, p)
      | some infx =>
          (liftP p.next_token).bind fun p1 =>
            (parse_expr fuel Precedence.Lowest p1).bind fun er =>
              match er.1 with
              | some expr => PRes.ok (some (Expr.Infix infx left expr), er.2)
              | none => PRes.ok (none, er.2)

/- the inline while-loop of parse_let_stmt and parse_return_stmt:
   while cur_token is not Semicolon, next_token -/
def skip_to_semicolon : Nat → Parser → PRes Parser
  | 0, _ => PRes.nofuel
  | fuel + 1, p =>
      if p.cur_token_is Token.Semicolon then PRes.ok p
      else (liftP p.next_token).bind fun p2 => skip_to_semicolon fuel p2

end

/- parse_program started from a fresh parser over a lexer -/
def parse_from (fuel : Nat) (l : Lexer) : PRes (List Stmt × Parser) :=
  (liftP (Parser.new l)).bind fun p => parse_program_go fuel p []

/- parse_program on a source text given as its byte list -/
def parse_input (fuel : Nat) (input : List Nat) : PRes (List Stmt × Parser) :=
  parse_from fuel (Lexer.new input)

/- the statement list of a finished run -/
def PRes.stmts : PRes (List Stmt × Parser) → Option (List Stmt)
  | PRes.ok r => some r.1
  | _ => none

/- the diagnostic list of a finished run -/
def PRes.diags : PRes (List Stmt × Parser) → Option (List String)
  | PRes.ok r => some r.2.errors
  | _ => none


/-
  Lemma layer for the lexer: the representation invariant Inv holds for
  every reachable state, the fixed fuel passed to the three scanning loops
  is sufficient on such states, and every successful next_token call
  advances the read cursor.
-/

theorem Lexer.read_char_input (l : Lexer) : l.read_char.input = l.input := rfl

theorem Lexer.read_char_position (l : Lexer) : l.read_char.position = l.read_position := rfl

theorem Lexer.read_char_read_position (l : Lexer) :
    l.read_char.read_position = l.read_position + 1 := rfl

theorem read_char_inv (l : Lexer) : Inv l.read_char := by
  refine ⟨rfl, ?_⟩
  by_cases h : l.read_position < l.input.length
  · simp [Lexer.read_char, h, Nat.not_le.mpr h]
  · have h2 : l.input.length ≤ l.read_position := Nat.not_lt.mp h
    simp [Lexer.read_char, h, h2]

theorem new_inv (input : List Nat) : Inv (Lexer.new input) := read_char_inv _

theorem ch_zero_of_end {l : Lexer} (h : Inv l) (he : l.input.length ≤ l.position) :
    l.ch = 0 := by
  rw [h.2]
  simp [Nat.not_lt.mpr he]

theorem pos_lt_of_ch {l : Lexer} (h : Inv l) (hc : l.ch ≠ 0) :
    l.position < l.input.length := by
  by_contra hpos
  exact hc (ch_zero_of_end h (Nat.not_lt.mp hpos))

theorem ws_ne_zero {c : Nat} (h : is_whitespace_byte c = true) : c ≠ 0 := by
  intro h0
  subst h0
  exact absurd h (by decide)

theorem letter_ne_zero {c : Nat} (h : is_letter c = true) : c ≠ 0 := by
  intro h0
  subst h0
  exact absurd h (by decide)

theorem digit_ne_zero {c : Nat} (h : is_digit c = true) : c ≠ 0 := by
  intro h0
  subst h0
  exact absurd h (by decide)

theorem swgo_spec : ∀ (fuel : Nat) (l : Lexer), Inv l → l.input.length - l.position < fuel →
    Inv (skip_whitespace_go fuel l) ∧
    (skip_whitespace_go fuel l).input = l.input ∧
    l.position ≤ (skip_whitespace_go fuel l).position ∧
    l.read_position ≤ (skip_whitespace_go fuel l).read_position ∧
    is_whitespace_byte (skip_whitespace_go fuel l).ch = false := by
  intro fuel
  induction fuel with
  | zero => intro l hInv hf; omega
  | succ f ih =>
      intro l hInv hf
      by_cases hws : is_whitespace_byte l.ch = true
      · have hlt : l.position < l.input.length := pos_lt_of_ch hInv (ws_ne_zero hws)
        have hpos : l.read_char.position = l.position + 1 := by
          rw [Lexer.read_char_position, hInv.1]
        have hrec := ih l.read_char (read_char_inv l)
          (by rw [hpos, Lexer.read_char_input]; omega)
        simp only [skip_whitespace_go, hws, if_true]
        refine ⟨hrec.1, ?_, ?_, ?_, hrec.2.2.2.2⟩
        · rw [hrec.2.1, Lexer.read_char_input]
        · have := hrec.2.2.1
          omega
        · have := hrec.2.2.2.1
          rw [Lexer.read_char_read_position] at this
          omega
      · simp only [skip_whitespace_go, hws, if_false]
        exact ⟨hInv, rfl, Nat.le_refl _, Nat.le_refl _, Bool.eq_false_iff.mpr hws⟩

theorem skip_whitespace_spec (l : Lexer) (hInv : Inv l) :
    Inv l.skip_whitespace ∧ l.skip_whitespace.input = l.input ∧
    l.position ≤ l.skip_whitespace.position ∧
    l.read_position ≤ l.skip_whitespace.read_position ∧
    is_whitespace_byte l.skip_whitespace.ch = false :=
  swgo_spec (l.input.length + 1) l hInv (by omega)

theorem skip_noop {l : Lexer} (h : is_whitespace_byte l.ch = false) :
    l.skip_whitespace = l := by
  unfold Lexer.skip_whitespace
  simp only [skip_whitespace_go, h, Bool.false_eq_true, if_false]

theorem rigo_spec : ∀ (fuel : Nat) (l : Lexer), Inv l → l.input.length - l.position < fuel →
    Inv (read_ident_go fuel l) ∧
    (read_ident_go fuel l).input = l.input ∧
    l.position ≤ (read_ident_go fuel l).position ∧
    l.read_position ≤ (read_ident_go fuel l).read_position ∧
    is_letter (read_ident_go fuel l).ch = false ∧
    (is_letter l.ch = true → l.position + 1 ≤ (read_ident_go fuel l).position) := by
  intro fuel
  induction fuel with
  | zero => intro l hInv hf; omega
  | succ f ih =>
      intro l hInv hf
      by_cases hlt : is_letter l.ch = true
      · have hpl : l.position < l.input.length := pos_lt_of_ch hInv (letter_ne_zero hlt)
        have hpos : l.read_char.position = l.position + 1 := by
          rw [Lexer.read_char_position, hInv.1]
        have hrec := ih l.read_char (read_char_inv l)
          (by rw [hpos, Lexer.read_char_input]; omega)
        simp only [read_ident_go, hlt, if_true]
        refine ⟨hrec.1, ?_, ?_, ?_, hrec.2.2.2.2.1, ?_⟩
        · rw [hrec.2.1, Lexer.read_char_input]
        · have := hrec.2.2.1
          omega
        · have := hrec.2.2.2.1
          rw [Lexer.read_char_read_position] at this
          omega
        · intro
          have := hrec.2.2.1
          omega
      · simp only [read_ident_go, hlt, if_false]
        exact ⟨hInv, rfl, Nat.le_refl _, Nat.le_refl _, Bool.eq_false_iff.mpr hlt,
          fun hc => absurd hc Bool.false_ne_true⟩

theorem rngo_spec : ∀ (fuel : Nat) (l : Lexer), Inv l → l.input.length - l.position < fuel →
    Inv (read_number_go fuel l) ∧
    (read_number_go fuel l).input = l.input ∧
    l.position ≤ (read_number_go fuel l).position ∧
    l.read_position ≤ (read_number_go fuel l).read_position ∧
    is_digit (read_number_go fuel l).ch = false ∧
    (is_digit l.ch = true → l.position + 1 ≤ (read_number_go fuel l).position) := by
  intro fuel
  induction fuel with
  | zero => intro l hInv hf; omega
  | succ f ih =>
      intro l hInv hf
      by_cases hlt : is_digit l.ch = true
      · have hpl : l.position < l.input.length := pos_lt_of_ch hInv (digit_ne_zero hlt)
        have hpos : l.read_char.position = l.position + 1 := by
          rw [Lexer.read_char_position, hInv.1]
        have hrec := ih l.read_char (read_char_inv l)
          (by rw [hpos, Lexer.read_char_input]; omega)
        simp only [read_number_go, hlt, if_true]
        refine ⟨hrec.1, ?_, ?_, ?_, hrec.2.2.2.2.1, ?_⟩
        · rw [hrec.2.1, Lexer.read_char_input]
        · have := hrec.2.2.1
          omega
        · have := hrec.2.2.2.1
          rw [Lexer.read_char_read_position] at this
          omega
        · intro
          have := hrec.2.2.1
          omega
      · simp only [read_number_go, hlt, if_false]
        exact ⟨hInv, rfl, Nat.le_refl _, Nat.le_refl _, Bool.eq_false_iff.mpr hlt,
          fun hc => absurd hc Bool.false_ne_true⟩

theorem read_identifier_snd (l : Lexer) :
    (l.read_identifier).2 = read_ident_go (l.input.length + 1) l := rfl

theorem read_number_snd (l : Lexer) :
    (l.read_number).2 = read_number_go (l.input.length + 1) l := rfl

theorem consume_identifier_snd (l : Lexer) :
    (l.consume_identifier).2 = (l.read_identifier).2 := by
  simp only [Lexer.consume_identifier]
  split_ifs <;> rfl

theorem consume_identifier_ne_eof (l : Lexer) :
    (l.consume_identifier).1 ≠ Token.EOF := by
  simp only [Lexer.consume_identifier]
  split_ifs <;> simp

theorem consume_number_cases {l : Lexer} {t : Token} {l2 : Lexer}
    (h : l.consume_number = some (t, l2)) :
    l2 = (l.read_number).2 ∧ ∃ n, t = Token.Int n := by
  simp only [Lexer.consume_number] at h
  split at h
  · simp only [Option.some.injEq, Prod.mk.injEq] at h
    exact ⟨h.2.symm, ⟨_, h.1.symm⟩⟩
  · exact absurd h (by simp)

theorem step_simple {l : Lexer} {tok t : Token} {l2 : Lexer}
    (h : some (tok, l.read_char) = some (t, l2)) :
    Inv l2 ∧ l2.input = l.input ∧ l.read_position + 1 ≤ l2.read_position := by
  simp only [Option.some.injEq, Prod.mk.injEq] at h
  obtain ⟨ht, hl⟩ := h
  subst hl
  exact ⟨read_char_inv _, rfl, by rw [Lexer.read_char_read_position]⟩

theorem step_double {l : Lexer} {tok t : Token} {l2 : Lexer}
    (h : some (tok, l.read_char.read_char) = some (t, l2)) :
    Inv l2 ∧ l2.input = l.input ∧ l.read_position + 1 ≤ l2.read_position := by
  simp only [Option.some.injEq, Prod.mk.injEq] at h
  obtain ⟨ht, hl⟩ := h
  subst hl
  refine ⟨read_char_inv _, rfl, ?_⟩
  rw [Lexer.read_char_read_position, Lexer.read_char_read_position]
  omega

theorem core_spec {l : Lexer} (hInv : Inv l) {t : Token} {l2 : Lexer}
    (h : next_token_core l = some (t, l2)) :
    Inv l2 ∧ l2.input = l.input ∧ l.read_position + 1 ≤ l2.read_position := by
  rw [next_token_core.eq_def] at h
  by_cases c1 : l.ch = 61
  · rw [if_pos c1] at h
    by_cases c2 : l.peek_char = 61
    · rw [if_pos c2] at h
      exact step_double h
    · rw [if_neg c2] at h
      exact step_simple h
  · rw [if_neg c1] at h
    by_cases c3 : l.ch = 43
    · rw [if_pos c3] at h
      exact step_simple h
    · rw [if_neg c3] at h
      by_cases c4 : l.ch = 45
      · rw [if_pos c4] at h
        exact step_simple h
      · rw [if_neg c4] at h
        by_cases c5 : l.ch = 33
        · rw [if_pos c5] at h
          by_cases c6 : l.peek_char = 61
          · rw [if_pos c6] at h
            exact step_double h
          · rw [if_neg c6] at h
            exact step_simple h
        · rw [if_neg c5] at h
          by_cases c7 : l.ch = 42
          · rw [if_pos c7] at h
            exact step_simple h
          · rw [if_neg c7] at h
            by_cases c8 : l.ch = 47
            · rw [if_pos c8] at h
              exact step_simple h
            · rw [if_neg c8] at h
              by_cases c9 : l.ch = 60
              · rw [if_pos c9] at h
                exact step_simple h
              · rw [if_neg c9] at h
                by_cases c10 : l.ch = 62
                · rw [if_pos c10] at h
                  exact step_simple h
                · rw [if_neg c10] at h
                  by_cases c11 : l.ch = 44
                  · rw [if_pos c11] at h
                    exact step_simple h
                  · rw [if_neg c11] at h
                    by_cases c12 : l.ch = 59
                    · rw [if_pos c12] at h
                      exact step_simple h
                    · rw [if_neg c12] at h
                      by_cases c13 : l.ch = 40
                      · rw [if_pos c13] at h
                        exact step_simple h
                      · rw [if_neg c13] at h
                        by_cases c14 : l.ch = 41
                        · rw [if_pos c14] at h
                          exact step_simple h
                        · rw [if_neg c14] at h
                          by_cases c15 : l.ch = 123
                          · rw [if_pos c15] at h
                            exact step_simple h
                          · rw [if_neg c15] at h
                            by_cases c16 : l.ch = 125
                            · rw [if_pos c16] at h
                              exact step_simple h
                            · rw [if_neg c16] at h
                              by_cases c17 : l.ch = 0
                              · rw [if_pos c17] at h
                                exact step_simple h
                              · rw [if_neg c17] at h
                                by_cases c18 : is_letter l.ch = true
                                · rw [if_pos c18] at h
                                  simp only [Option.some.injEq] at h
                                  have hl2 : (l.consume_identifier).2 = l2 := congrArg Prod.snd h
                                  rw [consume_identifier_snd, read_identifier_snd] at hl2
                                  subst hl2
                                  have hri := rigo_spec (l.input.length + 1) l hInv (by omega)
                                  refine ⟨hri.1, hri.2.1, ?_⟩
                                  have hstrict := hri.2.2.2.2.2 c18
                                  have e1 := hri.1.1
                                  have e2 := hInv.1
                                  omega
                                · rw [if_neg c18] at h
                                  by_cases c19 : is_digit l.ch = true
                                  · rw [if_pos c19] at h
                                    obtain ⟨hl2, hnum⟩ := consume_number_cases h
                                    rw [read_number_snd] at hl2
                                    subst hl2
                                    have hrn := rngo_spec (l.input.length + 1) l hInv (by omega)
                                    refine ⟨hrn.1, hrn.2.1, ?_⟩
                                    have hstrict := hrn.2.2.2.2.2 c19
                                    have e1 := hrn.1.1
                                    have e2 := hInv.1
                                    omega
                                  · rw [if_neg c19] at h
                                    exact step_simple h

theorem next_token_spec {l : Lexer} (hInv : Inv l) {t : Token} {l2 : Lexer}
    (h : l.next_token = some (t, l2)) :
    Inv l2 ∧ l2.input = l.input ∧ l.read_position + 1 ≤ l2.read_position := by
  have hs := skip_whitespace_spec l hInv
  rw [Lexer.next_token] at h
  have hc := core_spec hs.1 h
  refine ⟨hc.1, ?_, ?_⟩
  · rw [hc.2.1, hs.2.1]
  · have := hs.2.2.2.1
    have := hc.2.2
    omega

theorem next_token_pos {l : Lexer} (hInv : Inv l) {t : Token} {l2 : Lexer}
    (h : l.next_token = some (t, l2)) : l.position + 1 ≤ l2.position := by
  have hsp := next_token_spec hInv h
  have e1 := hInv.1
  have e2 := (hsp.1).1
  have e3 := hsp.2.2
  omega

theorem next_token_at_end {l : Lexer} (hInv : Inv l) (he : l.input.length ≤ l.position) :
    l.next_token = some (Token.EOF, l.read_char) := by
  have hch : l.ch = 0 := ch_zero_of_end hInv he
  have hnoop : l.skip_whitespace = l := skip_noop (by rw [hch]; rfl)
  rw [Lexer.next_token, hnoop, next_token_core.eq_def, hch]
  norm_num [is_letter, is_digit]

theorem core_eof {l : Lexer} {l2 : Lexer}
    (h : next_token_core l = some (Token.EOF, l2)) : l.ch = 0 ∧ l2 = l.read_char := by
  rw [next_token_core.eq_def] at h
  by_cases c1 : l.ch = 61
  · rw [if_pos c1] at h
    by_cases c2 : l.peek_char = 61
    · rw [if_pos c2] at h
      simp only [Option.some.injEq, Prod.mk.injEq] at h
      exact absurd h.1 (by decide)
    · rw [if_neg c2] at h
      simp only [Option.some.injEq, Prod.mk.injEq] at h
      exact absurd h.1 (by decide)
  · rw [if_neg c1] at h
    by_cases c3 : l.ch = 43
    · rw [if_pos c3] at h
      simp only [Option.some.injEq, Prod.mk.injEq] at h
      exact absurd h.1 (by decide)
    · rw [if_neg c3] at h
      by_cases c4 : l.ch = 45
      · rw [if_pos c4] at h
        simp only [Option.some.injEq, Prod.mk.injEq] at h
        exact absurd h.1 (by decide)
      · rw [if_neg c4] at h
        by_cases c5 : l.ch = 33
        · rw [if_pos c5] at h
          by_cases c6 : l.peek_char = 61
          · rw [if_pos c6] at h
            simp only [Option.some.injEq, Prod.mk.injEq] at h
            exact absurd h.1 (by decide)
          · rw [if_neg c6] at h
            simp only [Option.some.injEq, Prod.mk.injEq] at h
            exact absurd h.1 (by decide)
        · rw [if_neg c5] at h
          by_cases c7 : l.ch = 42
          · rw [if_pos c7] at h
            simp only [Option.some.injEq, Prod.mk.injEq] at h
            exact absurd h.1 (by decide)
          · rw [if_neg c7] at h
            by_cases c8 : l.ch = 47
            · rw [if_pos c8] at h
              simp only [Option.some.injEq, Prod.mk.injEq] at h
              exact absurd h.1 (by decide)
            · rw [if_neg c8] at h
              by_cases c9 : l.ch = 60
              · rw [if_pos c9] at h
                simp only [Option.some.injEq, Prod.mk.injEq] at h
                exact absurd h.1 (by decide)
              · rw [if_neg c9] at h
                by_cases c10 : l.ch = 62
                · rw [if_pos c10] at h
                  simp only [Option.some.injEq, Prod.mk.injEq] at h
                  exact absurd h.1 (by decide)
                · rw [if_neg c10] at h
                  by_cases c11 : l.ch = 44
                  · rw [if_pos c11] at h
                    simp only [Option.some.injEq, Prod.mk.injEq] at h
                    exact absurd h.1 (by decide)
                  · rw [if_neg c11] at h
                    by_cases c12 : l.ch = 59
                    · rw [if_pos c12] at h
                      simp only [Option.some.injEq, Prod.mk.injEq] at h
                      exact absurd h.1 (by decide)
                    · rw [if_neg c12] at h
                      by_cases c13 : l.ch = 40
                      · rw [if_pos c13] at h
                        simp only [Option.some.injEq, Prod.mk.injEq] at h
                        exact absurd h.1 (by decide)
                      · rw [if_neg c13] at h
                        by_cases c14 : l.ch = 41
                        · rw [if_pos c14] at h
                          simp only [Option.some.injEq, Prod.mk.injEq] at h
                          exact absurd h.1 (by decide)
                        · rw [if_neg c14] at h
                          by_cases c15 : l.ch = 123
                          · rw [if_pos c15] at h
                            simp only [Option.some.injEq, Prod.mk.injEq] at h
                            exact absurd h.1 (by decide)
                          · rw [if_neg c15] at h
                            by_cases c16 : l.ch = 125
                            · rw [if_pos c16] at h
                              simp only [Option.some.injEq, Prod.mk.injEq] at h
                              exact absurd h.1 (by decide)
                            · rw [if_neg c16] at h
                              by_cases c17 : l.ch = 0
                              · rw [if_pos c17] at h
                                simp only [Option.some.injEq, Prod.mk.injEq] at h
                                exact ⟨c17, h.2.symm⟩
                              · rw [if_neg c17] at h
                                by_cases c18 : is_letter l.ch = true
                                · rw [if_pos c18] at h
                                  simp only [Option.some.injEq] at h
                                  have hfst := congrArg Prod.fst h
                                  exact absurd hfst (consume_identifier_ne_eof l)
                                · rw [if_neg c18] at h
                                  by_cases c19 : is_digit l.ch = true
                                  · rw [if_pos c19] at h
                                    obtain ⟨hl2, ⟨n, hn⟩⟩ := consume_number_cases h
                                    exact absurd hn (by simp)
                                  · rw [if_neg c19] at h
                                    simp only [Option.some.injEq, Prod.mk.injEq] at h
                                    exact absurd h.1 (by decide)

theorem next_token_eof_end {l l2 : Lexer} (hInv : Inv l) (hnul : (0 : Nat) ∉ l.input)
    (h : l.next_token = some (Token.EOF, l2)) :
    Inv l2 ∧ l2.input = l.input ∧ l.input.length ≤ l2.position := by
  have hs := skip_whitespace_spec l hInv
  rw [Lexer.next_token] at h
  obtain ⟨hch, hl2⟩ := core_eof h
  have hpos : l.input.length ≤ (l.skip_whitespace).position := by
    by_contra hlt
    push_neg at hlt
    have hlen : (l.skip_whitespace).position < (l.skip_whitespace).input.length := by
      rw [hs.2.1]
      exact hlt
    have hcg : (l.skip_whitespace).ch =
        (l.skip_whitespace).input.getD (l.skip_whitespace).position 0 := by
      rw [hs.1.2, if_pos hlen]
    have hmem0 : (l.skip_whitespace).input.getD (l.skip_whitespace).position 0 ∈
        (l.skip_whitespace).input := by
      rw [List.getD_eq_getElem _ 0 hlen]
      exact List.getElem_mem hlen
    rw [← hcg, hch, hs.2.1] at hmem0
    exact hnul hmem0
  subst hl2
  refine ⟨read_char_inv _, by rw [Lexer.read_char_input, hs.2.1], ?_⟩
  rw [Lexer.read_char_position]
  have := hs.1.1
  omega

theorem eof_region_iter : ∀ (n : Nat) (l : Lexer), Inv l → l.input.length ≤ l.position →
    ∃ l2, lexStepN l n = some l2 ∧ Inv l2 ∧ l2.input = l.input ∧
      l2.input.length ≤ l2.position := by
  intro n
  induction n with
  | zero => intro l hInv he; exact ⟨l, rfl, hInv, rfl, he⟩
  | succ m ih =>
      intro l hInv he
      have hnt := next_token_at_end hInv he
      have hstep : lexStepN l (m + 1) = lexStepN l.read_char m := by
        simp only [lexStepN, hnt]
      obtain ⟨l2, h2, hInv2, hin2, he2⟩ := ih l.read_char (read_char_inv l)
        (by rw [Lexer.read_char_input, Lexer.read_char_position]; have := hInv.1; omega)
      exact ⟨l2, by rw [hstep]; exact h2, hInv2, by rw [hin2, Lexer.read_char_input], he2⟩

theorem lexStepN_pos : ∀ (n : Nat) (l lr : Lexer), Inv l → lexStepN l n = some lr →
    Inv lr ∧ lr.input = l.input ∧ l.position + n ≤ lr.position := by
  intro n
  induction n with
  | zero =>
      intro l lr hInv h
      simp only [lexStepN, Option.some.injEq] at h
      subst h
      exact ⟨hInv, rfl, by omega⟩
  | succ m ih =>
      intro l lr hInv h
      simp only [lexStepN] at h
      cases hnt : l.next_token with
      | none => rw [hnt] at h; exact absurd h (by simp)
      | some r =>
          rw [hnt] at h
          have hsp := next_token_spec hInv hnt
          have hp := next_token_pos hInv hnt
          obtain ⟨hInvr, hinr, hposr⟩ := ih r.2 lr hsp.1 h
          exact ⟨hInvr, by rw [hinr, hsp.2.1], by omega⟩


/-
  Claim-level development: concrete runs, divergence of the semicolon
  recovery loop, and the general theorems about operator chains, EOF
  behaviour and lexer progress.
-/

/-
  Concrete reachable parser states in the run on "let x = 5" (no trailing
  semicolon): P0c1 is the state after Parser::new, P3c1 the state in which
  parse_let_stmt enters its skip-to-semicolon loop, P4c1 its successor, in
  which cur and peek are both EOF and the lexer is exhausted.
-/
def P0c1 : Parser :=
  { l := { input := bytes "let x = 5", position := 5, read_position := 6, ch := 32 },
    cur_token := Token.Let, peek_token := Token.Ident [120], errors := [] }

def P3c1 : Parser :=
  { l := { input := bytes "let x = 5", position := 10, read_position := 11, ch := 0 },
    cur_token := Token.Int 5, peek_token := Token.EOF, errors := [] }

def P4c1 : Parser :=
  { l := { input := bytes "let x = 5", position := 11, read_position := 12, ch := 0 },
    cur_token := Token.EOF, peek_token := Token.EOF, errors := [] }

/- once cur and peek are EOF and the lexer is exhausted, the
   skip-to-semicolon loop runs forever: every fuel value is exhausted -/
theorem skip_sem_diverges : ∀ (f : Nat) (p : Parser), p.cur_token = Token.EOF →
    p.peek_token = Token.EOF → Inv p.l → p.l.input.length ≤ p.l.position →
    skip_to_semicolon f p = PRes.nofuel := by
  intro f
  induction f with
  | zero => intro p _ _ _ _; rfl
  | succ m ih =>
      intro p hc hp hInv hend
      have hnt : p.l.next_token = some (Token.EOF, p.l.read_char) :=
        next_token_at_end hInv hend
      have hcur : p.cur_token_is Token.Semicolon = false := by
        rw [Parser.cur_token_is, hc]
        rfl
      have hpn : p.next_token = some
          { l := p.l.read_char, cur_token := p.peek_token, peek_token := Token.EOF,
            errors := p.errors } := by
        simp only [Parser.next_token, hnt]
      have e : skip_to_semicolon (m + 1) p =
          PRes.bind (liftP p.next_token) (fun p2 => skip_to_semicolon m p2) := by
        simp only [skip_to_semicolon, hcur, Bool.false_eq_true, if_false]
      rw [e, hpn]
      simp only [liftP, PRes.bind]
      apply ih
      · exact hp
      · rfl
      · exact read_char_inv p.l
      · rw [Lexer.read_char_input, Lexer.read_char_position]
        have := hInv.1
        omega

theorem skipC1 : ∀ h : Nat, skip_to_semicolon h P3c1 = PRes.nofuel := by
  intro h
  cases h with
  | zero => rfl
  | succ m =>
      have e : skip_to_semicolon (m + 1) P3c1 = skip_to_semicolon m P4c1 := rfl
      rw [e]
      exact skip_sem_diverges m P4c1 rfl rfl (by decide) (by decide)

theorem letC1 : ∀ g : Nat, parse_let_stmt g P0c1 = PRes.nofuel := by
  intro g
  match g with
  | 0 => rfl
  | 1 => rfl
  | (m + 2) =>
      have e : parse_let_stmt (m + 2) P0c1 =
          PRes.bind (skip_to_semicolon (m + 1) P3c1)
            (fun p5 => PRes.ok
              (some (Stmt.Let { text := [120] } (Expr.Literal (Literal.Int 5))), p5)) := rfl
      rw [e, skipC1 (m + 1)]
      rfl

theorem stmtC1 : ∀ f : Nat, parse_stmt f P0c1 = PRes.nofuel := by
  intro f
  cases f with
  | zero => rfl
  | succ m =>
      have e : parse_stmt (m + 1) P0c1 = parse_let_stmt m P0c1 := rfl
      rw [e, letC1 m]

theorem loopC1 : ∀ f : Nat, parse_program_go f P0c1 [] = PRes.nofuel := by
  intro f
  cases f with
  | zero => rfl
  | succ m =>
      have e : parse_program_go (m + 1) P0c1 [] =
          PRes.bind (parse_stmt m P0c1) (fun r =>
            PRes.bind (liftP r.2.next_token) (fun p2 =>
              parse_program_go m p2
                (match r.1 with
                 | some stmt => [] ++ [stmt]
                 | none => []))) := rfl
      rw [e, stmtC1 m]
      rfl

/- the token that parse_infix_expr maps to each Infix operator (the inverse
   reading of its match; used to state claims about operator chains) -/
def infix_token : Infix → Token
  | Infix.Plus => Token.Plus
  | Infix.Minus => Token.Minus
  | Infix.Asterisk => Token.Asterisk
  | Infix.Slash => Token.Slash
  | Infix.Lt => Token.Lt
  | Infix.Gt => Token.Gt
  | Infix.Equal => Token.Equal
  | Infix.NotEqual => Token.NotEqual

/- single-step evaluation lemmas for the parser functions, used to trace
   symbolic runs whose token stream is given by hypotheses -/

theorem new_step {l l1 l2 : Lexer} {t1 t2 : Token}
    (h1 : l.next_token = some (t1, l1)) (h2 : l1.next_token = some (t2, l2)) :
    Parser.new l = some
      { l := l2, cur_token := t1, peek_token := t2, errors := [] } := by
  simp only [Parser.new, Parser.next_token, h1, h2, Option.bind]

theorem pnext_step (p : Parser) {t : Token} {lx : Lexer}
    (h : p.l.next_token = some (t, lx)) :
    p.next_token = some
      { l := lx, cur_token := p.peek_token, peek_token := t, errors := p.errors } := by
  simp only [Parser.next_token, h]

theorem go_step (fuel : Nat) (p : Parser) (acc : List Stmt)
    (hc : (p.cur_token == Token.EOF) = false) :
    parse_program_go (fuel + 1) p acc =
      PRes.bind (parse_stmt fuel p) (fun r =>
        PRes.bind (liftP r.2.next_token) (fun p2 =>
          parse_program_go fuel p2
            (match r.1 with
             | some stmt => acc ++ [stmt]
             | none => acc))) := by
  simp only [parse_program_go, Parser.cur_token_is, hc, Bool.false_eq_true, if_false]

theorem go_done (fuel : Nat) (p : Parser) (acc : List Stmt)
    (hc : (p.cur_token == Token.EOF) = true) :
    parse_program_go (fuel + 1) p acc = PRes.ok (acc, p) := by
  simp only [parse_program_go, Parser.cur_token_is, hc, if_true]

theorem stmt_step_int (fuel : Nat) (p : Parser) (n : Int)
    (hcur : p.cur_token = Token.Int n) :
    parse_stmt (fuel + 1) p = parse_expr_stmt fuel p := by
  simp only [parse_stmt, hcur]

theorem stmt_step_ident (fuel : Nat) (p : Parser) (s : List Nat)
    (hcur : p.cur_token = Token.Ident s) :
    parse_stmt (fuel + 1) p = parse_expr_stmt fuel p := by
  simp only [parse_stmt, hcur]

theorem expr_stmt_step (fuel : Nat) (p : Parser) :
    parse_expr_stmt (fuel + 1) p =
      PRes.bind (parse_expr fuel Precedence.Lowest p) (fun er =>
        match er.1 with
        | none => PRes.ok (none, er.2)
        | some expr =>
            PRes.bind (liftP (er.2.consume_token Token.Semicolon)) (fun br =>
              PRes.ok (some (Stmt.Expr expr), br.2))) := by
  simp only [parse_expr_stmt]

theorem expr_int_followed (fuel : Nat) (prec : Precedence) (p p2 : Parser) (n : Int)
    (hcur : p.cur_token = Token.Int n)
    (htest : p.peek_token_infix_test = true)
    (hnext : p.next_token = some p2) :
    parse_expr (fuel + 1) prec p =
      parse_infix_expr fuel (Expr.Literal (Literal.Int n)) p2 := by
  simp only [parse_expr, hcur, Parser.parse_int_expr, htest, if_true, hnext, liftP,
    PRes.bind]

theorem expr_int_done (fuel : Nat) (prec : Precedence) (p : Parser) (n : Int)
    (hcur : p.cur_token = Token.Int n)
    (htest : p.peek_token_infix_test = false) :
    parse_expr (fuel + 1) prec p = PRes.ok (some (Expr.Literal (Literal.Int n)), p) := by
  simp only [parse_expr, hcur, Parser.parse_int_expr, htest, Bool.false_eq_true, if_false]

theorem expr_ident_done (fuel : Nat) (prec : Precedence) (p : Parser) (s : List Nat)
    (hcur : p.cur_token = Token.Ident s)
    (htest : p.peek_token_infix_test = false) :
    parse_expr (fuel + 1) prec p = PRes.ok (some (Expr.Ident { text := s }), p) := by
  simp only [parse_expr, hcur, Parser.parse_ident_expr, Parser.parse_ident, htest,
    Bool.false_eq_true, if_false]

theorem infix_step (fuel : Nat) (left : Expr) (p p2 : Parser) (infx : Infix)
    (hcur : p.cur_token = infix_token infx)
    (hnext : p.next_token = some p2) :
    parse_infix_expr (fuel + 1) left p =
      PRes.bind (parse_expr fuel Precedence.Lowest p2) (fun er =>
        match er.1 with
        | some expr => PRes.ok (some (Expr.Infix infx left expr), er.2)
        | none => PRes.ok (none, er.2)) := by
  cases infx <;>
    simp only [parse_infix_expr, hcur, infix_token, hnext, liftP, PRes.bind]

theorem consume_ok (p p2 : Parser) (tok : Token)
    (hpk : (p.peek_token == tok) = true)
    (hnext : p.next_token = some p2) :
    p.consume_token tok = some (true, p2) := by
  simp only [Parser.consume_token, Parser.peek_token_is, hpk, if_true, hnext]

theorem consume_fail (p : Parser) (tok : Token)
    (hpk : (p.peek_token == tok) = false) :
    p.consume_token tok = some (false, p.peek_error tok) := by
  simp only [Parser.consume_token, Parser.peek_token_is, hpk, Bool.false_eq_true, if_false]

theorem semi_err_msg :
    "expected next Some(token to be " ++ fmt_token Token.Semicolon ++ ", got " ++
      fmt_token Token.EOF ++ " instead" =
    "expected next Some(token to be Semicolon, got EOF instead" := by decide

/--
Amended C4: chains of two occurrences of the same infix operator associate
right-to-left, not left-to-right.  For every lexer whose token stream is
Int a, OP, Int b, OP, Int c, Semicolon, EOF, EOF, parse_program returns the
single statement Expr (Infix OP a (Infix OP b c)) (the second operator is
swallowed into the right subtree, because parse_infix_expr parses its right
operand at Lowest precedence) and no diagnostics.
-/
theorem C4_infix_chains_right_assoc (op : Infix) (a b c : Int)
    (l l1 l2 l3 l4 l5 l6 l7 l8 : Lexer)
    (h1 : l.next_token = some (Token.Int a, l1))
    (h2 : l1.next_token = some (infix_token op, l2))
    (h3 : l2.next_token = some (Token.Int b, l3))
    (h4 : l3.next_token = some (infix_token op, l4))
    (h5 : l4.next_token = some (Token.Int c, l5))
    (h6 : l5.next_token = some (Token.Semicolon, l6))
    (h7 : l6.next_token = some (Token.EOF, l7))
    (h8 : l7.next_token = some (Token.EOF, l8)) :
    parse_from 16 l = PRes.ok
      ([Stmt.Expr (Expr.Infix op (Expr.Literal (Literal.Int a))
         (Expr.Infix op (Expr.Literal (Literal.Int b)) (Expr.Literal (Literal.Int c))))],
       { l := l8, cur_token := Token.EOF, peek_token := Token.EOF, errors := [] }) := by
  have hnew : Parser.new l = some
      { l := l2, cur_token := Token.Int a, peek_token := infix_token op,
        errors := [] } := new_step h1 h2
  have hAB : Parser.next_token
      { l := l2, cur_token := Token.Int a, peek_token := infix_token op,
        errors := [] } = some
      { l := l3, cur_token := infix_token op, peek_token := Token.Int b,
        errors := [] } := pnext_step _ h3
  have hBC : Parser.next_token
      { l := l3, cur_token := infix_token op, peek_token := Token.Int b,
        errors := [] } = some
      { l := l4, cur_token := Token.Int b, peek_token := infix_token op,
        errors := [] } := pnext_step _ h4
  have hCD : Parser.next_token
      { l := l4, cur_token := Token.Int b, peek_token := infix_token op,
        errors := [] } = some
      { l := l5, cur_token := infix_token op, peek_token := Token.Int c,
        errors := [] } := pnext_step _ h5
  have hDE : Parser.next_token
      { l := l5, cur_token := infix_token op, peek_token := Token.Int c,
        errors := [] } = some
      { l := l6, cur_token := Token.Int c, peek_token := Token.Semicolon,
        errors := [] } := pnext_step _ h6
  have hEF : Parser.next_token
      { l := l6, cur_token := Token.Int c, peek_token := Token.Semicolon,
        errors := [] } = some
      { l := l7, cur_token := Token.Semicolon, peek_token := Token.EOF,
        errors := [] } := pnext_step _ h7
  have hFG : Parser.next_token
      { l := l7, cur_token := Token.Semicolon, peek_token := Token.EOF,
        errors := [] } = some
      { l := l8, cur_token := Token.EOF, peek_token := Token.EOF,
        errors := [] } := pnext_step _ h8
  have e0 : parse_from 16 l =
      PRes.bind (liftP (Parser.new l)) (fun p => parse_program_go 16 p []) := rfl
  rw [e0, hnew]
  simp only [liftP, PRes.bind]
  rw [go_step 15 _ [] (by rfl)]
  rw [stmt_step_int 14 _ a rfl]
  rw [expr_stmt_step 13 _]
  rw [expr_int_followed 12 Precedence.Lowest _ _ a rfl (by cases op <;> rfl) hAB]
  rw [infix_step 11 _ _ _ op rfl hBC]
  rw [expr_int_followed 10 Precedence.Lowest _ _ b rfl (by cases op <;> rfl) hCD]
  rw [infix_step 9 _ _ _ op rfl hDE]
  rw [expr_int_done 8 Precedence.Lowest _ c rfl (by rfl)]
  simp only [PRes.bind]
  rw [consume_ok _ _ Token.Semicolon (by rfl) hEF]
  simp only [liftP, PRes.bind]
  rw [hFG]
  simp only [liftP, PRes.bind, List.nil_append]
  rw [go_done 14 _ [Stmt.Expr (Expr.Infix op (Expr.Literal (Literal.Int a))
    (Expr.Infix op (Expr.Literal (Literal.Int b)) (Expr.Literal (Literal.Int c))))]
    (by rfl)]

/--
Amended C7: a trailing semicolon is optional for the statement itself, but
not silent: for every lexer whose token stream is Ident s, EOF, EOF, the
parser emits the Expr statement and also records one diagnostic for the
missing semicolon (consume_token calls peek_error whenever peek is not the
expected token, and parse_expr_stmt only discards the returned Bool).
-/
theorem C7_missing_semicolon_records_diag (s : List Nat) (l l1 l2 l3 : Lexer)
    (h1 : l.next_token = some (Token.Ident s, l1))
    (h2 : l1.next_token = some (Token.EOF, l2))
    (h3 : l2.next_token = some (Token.EOF, l3)) :
    parse_from 8 l = PRes.ok
      ([Stmt.Expr (Expr.Ident { text := s })],
       { l := l3, cur_token := Token.EOF, peek_token := Token.EOF,
         errors := ["expected next Some(token to be Semicolon, got EOF instead"] }) := by
  have hnew : Parser.new l = some
      { l := l2, cur_token := Token.Ident s, peek_token := Token.EOF,
        errors := [] } := new_step h1 h2
  have hFG : Parser.next_token
      { l := l2, cur_token := Token.Ident s, peek_token := Token.EOF,
        errors := ["expected next Some(token to be Semicolon, got EOF instead"] } = some
      { l := l3, cur_token := Token.EOF, peek_token := Token.EOF,
        errors := ["expected next Some(token to be Semicolon, got EOF instead"] } :=
    pnext_step _ h3
  have e0 : parse_from 8 l =
      PRes.bind (liftP (Parser.new l)) (fun p => parse_program_go 8 p []) := rfl
  rw [e0, hnew]
  simp only [liftP, PRes.bind]
  rw [go_step 7 _ [] (by rfl)]
  rw [stmt_step_ident 6 _ s rfl]
  rw [expr_stmt_step 5 _]
  rw [expr_ident_done 4 Precedence.Lowest _ s rfl (by rfl)]
  simp only [PRes.bind]
  rw [consume_fail _ Token.Semicolon (by rfl)]
  simp only [liftP, PRes.bind, Parser.peek_error, List.nil_append, semi_err_msg]
  rw [hFG]
  simp only [liftP, PRes.bind, List.nil_append]
  rw [go_done 6 _ [Stmt.Expr (Expr.Ident { text := s })] (by rfl)]

/--
C1: the claim says parse_program terminates on every finite token stream.
The code disagrees: on the input "let x = 5" (no semicolon before end of
input) the loop "while cur_token is not Semicolon" inside parse_let_stmt
never exits, because once the lexer is exhausted every next_token call
returns EOF again; the run below exhausts every fuel value, which is a
proof that the Rust loop runs forever.
-/
theorem C1_parse_diverges_without_semicolon :
    ∀ fuel : Nat, parse_input fuel (bytes "let x = 5") = PRes.nofuel := by
  intro fuel
  have hnew : Parser.new (Lexer.new (bytes "let x = 5")) = some P0c1 := by decide
  have e : parse_input fuel (bytes "let x = 5") =
      PRes.bind (liftP (Parser.new (Lexer.new (bytes "let x = 5"))))
        (fun p => parse_program_go fuel p []) := rfl
  rw [e, hnew]
  simp only [liftP, PRes.bind]
  exact loopC1 fuel

/--
C2 counterexample: parsing "let = 5;" does not produce zero statements and
a non-empty diagnostic list; it produces the single statement
Expr (Literal (Int 5)) and an empty diagnostic list.
-/
theorem C2_counterexample :
    (parse_input 32 (bytes "let = 5;")).stmts =
      some [Stmt.Expr (Expr.Literal (Literal.Int 5))] ∧
    (parse_input 32 (bytes "let = 5;")).stmts ≠ some [] ∧
    (parse_input 32 (bytes "let = 5;")).diags = some [] := by decide

/--
Amended C2: parsing "let = 5;" terminates and returns a Program with
exactly one statement, Expr (Literal (Int 5)), and an empty diagnostic
list: parse_let_stmt silently returns None when peek is not an identifier
(no message is recorded on that path), the parser then resumes at the "="
token, fails silently again at the start of an expression, and finally
parses "5;" as an expression statement.
-/
theorem C2_let_missing_ident_result :
    (parse_input 32 (bytes "let = 5;")).stmts =
      some [Stmt.Expr (Expr.Literal (Literal.Int 5))] ∧
    (parse_input 32 (bytes "let = 5;")).diags = some [] := by decide

/--
C3: parsing "1 + 2 * 3;" yields the single expression statement
Infix (Plus, Literal 1, Infix (Asterisk, Literal 2, Literal 3)) with the
multiplication nested on the right of the addition, and no diagnostics.
-/
theorem C3_one_plus_two_times_three :
    (parse_input 32 (bytes "1 + 2 * 3;")).stmts =
      some [Stmt.Expr (Expr.Infix Infix.Plus (Expr.Literal (Literal.Int 1))
        (Expr.Infix Infix.Asterisk (Expr.Literal (Literal.Int 2))
          (Expr.Literal (Literal.Int 3))))] ∧
    (parse_input 32 (bytes "1 + 2 * 3;")).diags = some [] := by decide

/--
C4 counterexample: parsing "5 - 5 - 5;" yields the right-nested tree
Infix (Minus, 5, Infix (Minus, 5, 5)), not the left-nested tree
Infix (Minus, Infix (Minus, 5, 5), 5) that the claim predicts.
-/
theorem C4_counterexample :
    (parse_input 32 (bytes "5 - 5 - 5;")).stmts =
      some [Stmt.Expr (Expr.Infix Infix.Minus (Expr.Literal (Literal.Int 5))
        (Expr.Infix Infix.Minus (Expr.Literal (Literal.Int 5))
          (Expr.Literal (Literal.Int 5))))] ∧
    (parse_input 32 (bytes "5 - 5 - 5;")).stmts ≠
      some [Stmt.Expr (Expr.Infix Infix.Minus
        (Expr.Infix Infix.Minus (Expr.Literal (Literal.Int 5))
          (Expr.Literal (Literal.Int 5)))
        (Expr.Literal (Literal.Int 5)))] := by decide

/--
C4 witness: the amended theorem applied to the concrete input
"5 - 5 - 5;" with OP the Minus operator.
-/
theorem C4_witness :
    parse_from 16 (Lexer.new (bytes "5 - 5 - 5;")) = PRes.ok
      ([Stmt.Expr (Expr.Infix Infix.Minus (Expr.Literal (Literal.Int 5))
         (Expr.Infix Infix.Minus (Expr.Literal (Literal.Int 5))
           (Expr.Literal (Literal.Int 5))))],
       { l := { input := bytes "5 - 5 - 5;", position := 12, read_position := 13, ch := 0 },
         cur_token := Token.EOF, peek_token := Token.EOF, errors := [] }) :=
  C4_infix_chains_right_assoc Infix.Minus 5 5 5
    (Lexer.new (bytes "5 - 5 - 5;"))
    { input := bytes "5 - 5 - 5;", position := 1, read_position := 2, ch := 32 }
    { input := bytes "5 - 5 - 5;", position := 3, read_position := 4, ch := 32 }
    { input := bytes "5 - 5 - 5;", position := 5, read_position := 6, ch := 32 }
    { input := bytes "5 - 5 - 5;", position := 7, read_position := 8, ch := 32 }
    { input := bytes "5 - 5 - 5;", position := 9, read_position := 10, ch := 59 }
    { input := bytes "5 - 5 - 5;", position := 10, read_position := 11, ch := 0 }
    { input := bytes "5 - 5 - 5;", position := 11, read_position := 12, ch := 0 }
    { input := bytes "5 - 5 - 5;", position := 12, read_position := 13, ch := 0 }
    (by decide) (by decide) (by decide) (by decide) (by decide) (by decide)
    (by decide) (by decide)

/--
C5 counterexample: on the input consisting of a NUL byte followed by the
letter a, next_token first returns EOF (at the NUL byte) and the very next
call returns Ident "a", so EOF is not a fixed point of the stream.
-/
theorem C5_counterexample :
    (Lexer.new [0, 97]).next_token =
      some (Token.EOF, { input := [0, 97], position := 1, read_position := 2, ch := 97 }) ∧
    Lexer.next_token { input := [0, 97], position := 1, read_position := 2, ch := 97 } =
      some (Token.Ident [97],
        { input := [0, 97], position := 2, read_position := 3, ch := 0 }) ∧
    Token.Ident [97] ≠ Token.EOF := by decide

/--
Amended C5: for every input that does not contain a NUL (zero) byte, EOF is
a fixed point of the token stream: once next_token has returned EOF, every
subsequent call returns EOF again.
-/
theorem C5_eof_fixed_point_without_nul (l l1 : Lexer) (n : Nat) (hInv : Inv l)
    (hnul : (0 : Nat) ∉ l.input)
    (h : l.next_token = some (Token.EOF, l1)) :
    ∃ l2, lexStepN l1 n = some l2 ∧ l2.next_token = some (Token.EOF, l2.read_char) := by
  obtain ⟨hInv1, hin1, hpos1⟩ := next_token_eof_end hInv hnul h
  obtain ⟨l2, hstep, hInv2, hin2, hpos2⟩ := eof_region_iter n l1 hInv1
    (by rw [hin1]; exact hpos1)
  exact ⟨l2, hstep, next_token_at_end hInv2 hpos2⟩

/--
C5 witness: the amended theorem applied to the empty input, whose first
token is EOF, iterated two further steps.
-/
theorem C5_witness :
    ∃ l2, lexStepN { input := [], position := 1, read_position := 2, ch := 0 } 2 =
        some l2 ∧ l2.next_token = some (Token.EOF, l2.read_char) :=
  C5_eof_fixed_point_without_nul (Lexer.new [])
    { input := [], position := 1, read_position := 2, ch := 0 } 2
    (by decide) (by decide) (by decide)

/--
C6: tokenizing "10 == 10;" yields the single two-character token Equal
between the two integer tokens, and tokenizing "10 != 9;" yields the
single token NotEqual; neither is split into two one-character tokens.
-/
theorem C6_two_char_operators :
    lex_tokens (Lexer.new (bytes "10 == 10;")) 5 =
      some [Token.Int 10, Token.Equal, Token.Int 10, Token.Semicolon, Token.EOF] ∧
    lex_tokens (Lexer.new (bytes "10 != 9;")) 5 =
      some [Token.Int 10, Token.NotEqual, Token.Int 9, Token.Semicolon, Token.EOF] := by
  decide

/--
C7 counterexample: parsing "foobar" (no trailing semicolon) emits the Expr
statement but does record a diagnostic for the missing semicolon, where
the claim says no diagnostic is recorded.
-/
theorem C7_counterexample :
    (parse_input 32 (bytes "foobar")).stmts =
      some [Stmt.Expr (Expr.Ident { text := bytes "foobar" })] ∧
    (parse_input 32 (bytes "foobar")).diags =
      some ["expected next Some(token to be Semicolon, got EOF instead"] ∧
    (parse_input 32 (bytes "foobar")).diags ≠ some [] := by decide

/--
C7 witness: the amended theorem applied to the concrete input "foobar".
-/
theorem C7_witness :
    parse_from 8 (Lexer.new (bytes "foobar")) = PRes.ok
      ([Stmt.Expr (Expr.Ident { text := bytes "foobar" })],
       { l := { input := bytes "foobar", position := 8, read_position := 9, ch := 0 },
         cur_token := Token.EOF, peek_token := Token.EOF,
         errors := ["expected next Some(token to be Semicolon, got EOF instead"] }) :=
  C7_missing_semicolon_records_diag (bytes "foobar")
    (Lexer.new (bytes "foobar"))
    { input := bytes "foobar", position := 6, read_position := 7, ch := 0 }
    { input := bytes "foobar", position := 7, read_position := 8, ch := 0 }
    { input := bytes "foobar", position := 8, read_position := 9, ch := 0 }
    (by decide) (by decide) (by decide)

/--
C8 counterexample: Token.Illegal carries no payload, so the offending byte
is not part of the token: two different unrecognized bytes (64 and 35)
produce identical Illegal tokens.
-/
theorem C8_counterexample :
    (Lexer.new [64]).next_token =
      some (Token.Illegal, { input := [64], position := 1, read_position := 2, ch := 0 }) ∧
    (Lexer.new [35]).next_token =
      some (Token.Illegal, { input := [35], position := 1, read_position := 2, ch := 0 }) ∧
    ((Lexer.new [64]).next_token).map Prod.fst =
      ((Lexer.new [35]).next_token).map Prod.fst := by decide

/--
Amended C8: for every lexer state whose current byte is not whitespace, not
one of the fourteen punctuation or operator bytes, not an ASCII letter or
underscore, not an ASCII digit and not zero, next_token returns the
(payload-free) Illegal token and advances one byte.
-/
theorem C8_unrecognized_byte_is_illegal (l : Lexer)
    (hws : is_whitespace_byte l.ch = false)
    (hpunct : l.ch ∉ ([61, 43, 45, 33, 42, 47, 60, 62, 44, 59, 40, 41, 123, 125] : List Nat))
    (hletter : is_letter l.ch = false)
    (hdigit : is_digit l.ch = false)
    (hnz : l.ch ≠ 0) :
    l.next_token = some (Token.Illegal, l.read_char) := by
  have hne : l.ch ≠ 61 ∧ l.ch ≠ 43 ∧ l.ch ≠ 45 ∧ l.ch ≠ 33 ∧ l.ch ≠ 42 ∧ l.ch ≠ 47 ∧
      l.ch ≠ 60 ∧ l.ch ≠ 62 ∧ l.ch ≠ 44 ∧ l.ch ≠ 59 ∧ l.ch ≠ 40 ∧ l.ch ≠ 41 ∧
      l.ch ≠ 123 ∧ l.ch ≠ 125 := by
    simpa [not_or] using hpunct
  have hl : ¬ (is_letter l.ch = true) := by simp [hletter]
  have hd : ¬ (is_digit l.ch = true) := by simp [hdigit]
  rw [Lexer.next_token, skip_noop hws, next_token_core.eq_def]
  rw [if_neg hne.1, if_neg hne.2.1, if_neg hne.2.2.1, if_neg hne.2.2.2.1,
    if_neg hne.2.2.2.2.1, if_neg hne.2.2.2.2.2.1, if_neg hne.2.2.2.2.2.2.1,
    if_neg hne.2.2.2.2.2.2.2.1, if_neg hne.2.2.2.2.2.2.2.2.1,
    if_neg hne.2.2.2.2.2.2.2.2.2.1, if_neg hne.2.2.2.2.2.2.2.2.2.2.1,
    if_neg hne.2.2.2.2.2.2.2.2.2.2.2.1, if_neg hne.2.2.2.2.2.2.2.2.2.2.2.2.1,
    if_neg hne.2.2.2.2.2.2.2.2.2.2.2.2.2, if_neg hnz, if_neg hl, if_neg hd]

/--
C8 witness: the amended theorem applied to the single-byte input 64 (the
commercial at sign), which is unrecognized.
-/
theorem C8_witness :
    (Lexer.new [64]).next_token = some (Token.Illegal, (Lexer.new [64]).read_char) :=
  C8_unrecognized_byte_is_illegal (Lexer.new [64])
    (by decide) (by decide) (by decide) (by decide) (by decide)

/--
C9: parsing "let x = 5;" yields a Program with exactly one statement,
Let (Ident "x") (Literal (Int 5)), and an empty diagnostic list.
-/
theorem C9_let_x_equals_5 :
    (parse_input 32 (bytes "let x = 5;")).stmts =
      some [Stmt.Let { text := bytes "x" } (Expr.Literal (Literal.Int 5))] ∧
    (parse_input 32 (bytes "let x = 5;")).diags = some [] := by decide

/--
C10 counterexample: on the input consisting of nineteen 9 digits, a number
beyond the i64 range, the very first next_token call panics (parse i64
unwrap aborts), so it neither returns EOF nor advances: not every finite
input reaches EOF in finitely many calls.
-/
theorem C10_counterexample :
    (Lexer.new (bytes "9999999999999999999")).next_token = none := by decide

/--
Amended C10: every next_token call that returns advances the read cursor
by at least one byte, and on every input on which no call panics the
cursor passes the end of the input after at most length many calls, after
which next_token returns EOF.
-/
theorem C10_lexer_progress (input : List Nat) (l l2 lr : Lexer) (t : Token)
    (hInv : Inv l) (h : l.next_token = some (t, l2))
    (hrun : lexStepN (Lexer.new input) input.length = some lr) :
    l.read_position + 1 ≤ l2.read_position ∧
      lr.next_token = some (Token.EOF, lr.read_char) := by
  refine ⟨(next_token_spec hInv h).2.2, ?_⟩
  obtain ⟨hInvr, hinr, hposr⟩ :=
    lexStepN_pos input.length (Lexer.new input) lr (new_inv input) hrun
  apply next_token_at_end hInvr
  have h1 : (Lexer.new input).position = 0 := rfl
  have h2 : (Lexer.new input).input = input := rfl
  rw [hinr, h2]
  rw [h1] at hposr
  omega

/--
C10 witness: the amended theorem applied to the single-letter input 97,
whose one-step iteration exhausts the input.
-/
theorem C10_witness :
    (Lexer.new [97]).read_position + 1 ≤
      ({ input := [97], position := 1, read_position := 2, ch := 0 } : Lexer).read_position ∧
    Lexer.next_token { input := [97], position := 1, read_position := 2, ch := 0 } =
      some (Token.EOF,
        Lexer.read_char { input := [97], position := 1, read_position := 2, ch := 0 }) :=
  C10_lexer_progress [97] (Lexer.new [97])
    { input := [97], position := 1, read_position := 2, ch := 0 }
    { input := [97], position := 1, read_position := 2, ch := 0 }
    (Token.Ident [97]) (by decide) (by decide) (by decide)

end Rucky
